import Mathlib

/-!
Verification of the message-body extraction and categorization core of the
`fetch_gmails_project2` mailbox assistant.

The definitions below are a shallow embedding of `src/utils.py`
(`get_header`, `_decode_body_data`, `extract_plain_text_from_payload`) and of
`src/reader.py` (`MailCategorizer.classify`, `MailCategorizer._heuristic`).
Python strings are modelled as Lean `String` (a list of unicode code points,
matching Python's code-point semantics for `len`, slicing and `in`); Gmail's
JSON payload dictionaries are modelled by the `Payload` tree; byte strings are
`List Nat`; a Python function that can raise is modelled with `Except`, the
error value standing for the raised exception.

Modelling notes, where Python library routines are re-implemented:
  * `str.lower` is modelled as ASCII lowercasing (`pyLower`); every string the
    verified claims touch is ASCII, where the two coincide.
  * `str.strip` is modelled as trimming the ASCII whitespace characters
    (`pyStrip`); same remark.
  * `x in text` (substring test) is `strContains`.
  * `x or ""` on a string (Python falsy-or) is `pyOr`, which is the identity
    on strings and is kept only to mirror the source line by line.
  * `base64.urlsafe_b64decode` is `urlsafe_b64decode`, following CPython's
    non-strict `binascii.a2b_base64`: the two urlsafe characters are first
    translated, characters outside the base64 alphabet are discarded, a
    completed padding group stops decoding, and a leftover partial group
    raises `binascii.Error` (the `Except.error` case).
  * `bytes.decode("utf-8", errors="replace")` is `utf8_decode_replace`,
    the standard UTF-8 decoder emitting U+FFFD for each maximal invalid
    subsequence; it never fails, exactly as the Python call never raises.
-/

/-- Python `str.lower` on one character, restricted to ASCII. -/
def lowerChar (c : Char) : Char :=
  if 'A' ≤ c ∧ c ≤ 'Z' then Char.ofNat (c.toNat + 32) else c

/-- Python `str.lower`, restricted to ASCII. -/
def pyLower (s : String) : String := ⟨s.data.map lowerChar⟩

/-- Python `str.strip`: drop leading and trailing whitespace. -/
def pyStrip (s : String) : String :=
  ⟨(((s.data.dropWhile Char.isWhitespace).reverse).dropWhile Char.isWhitespace).reverse⟩

/-- Python `s or ""` for a string `s`: the empty string is falsy.  This is the
identity on strings (`pyOr_eq`); it is kept to mirror the source. -/
def pyOr (s : String) : String := if s = "" then "" else s

/-- Decides whether the first list is a prefix of the second. -/
def isPrefixOfL : List Char → List Char → Bool
  | [], _ => true
  | _ :: _, [] => false
  | a :: as, b :: bs => a == b && isPrefixOfL as bs

/-- Decides whether `pat` occurs as a contiguous sublist of the second list. -/
def containsL (pat : List Char) : List Char → Bool
  | [] => isPrefixOfL pat []
  | c :: rest => isPrefixOfL pat (c :: rest) || containsL pat rest

/-- Python `pat in text` for strings: substring containment. -/
def strContains (text pat : String) : Bool := containsL pat.data text.data

/-! ### base64 (CPython `binascii.a2b_base64`, non-strict mode) -/

/-- Value of one character in the standard base64 alphabet, `none` when the
character is not in the alphabet. -/
def b64CharVal (c : Char) : Option Nat :=
  if 'A' ≤ c ∧ c ≤ 'Z' then some (c.toNat - 65)
  else if 'a' ≤ c ∧ c ≤ 'z' then some (c.toNat - 97 + 26)
  else if '0' ≤ c ∧ c ≤ '9' then some (c.toNat - 48 + 52)
  else if c = '+' then some 62
  else if c = '/' then some 63
  else none

/-- Translation applied by `base64.urlsafe_b64decode` before decoding. -/
def urlsafeChar (c : Char) : Char :=
  if c = '-' then '+' else if c = '_' then '/' else c

/-- CPython's `binascii.a2b_base64` loop (non-strict): `quadPos` is the
position inside the current 4-character group, `leftchar` holds the pending
bits, `pads` counts the padding characters seen in the current group and
`acc` the output bytes in reverse.  A group completed by padding returns the
bytes decoded so far; a leftover partial group at the end raises
`binascii.Error`, modelled by `Except.error`. -/
def a2b_base64 : List Char → Nat → Nat → Nat → List Nat → Except String (List Nat)
  | [], quadPos, _, _, acc =>
    if quadPos = 0 then Except.ok acc.reverse
    else if quadPos = 1 then Except.error "Invalid base64-encoded string"
    else Except.error "Incorrect padding"
  | c :: rest, quadPos, leftchar, pads, acc =>
    if c = '=' then
      if 2 ≤ quadPos ∧ 4 ≤ quadPos + (pads + 1) then Except.ok acc.reverse
      else a2b_base64 rest quadPos leftchar (pads + 1) acc
    else
      match b64CharVal c with
      | none => a2b_base64 rest quadPos leftchar pads acc
      | some v =>
        match quadPos with
        | 0 => a2b_base64 rest 1 v 0 acc
        | 1 => a2b_base64 rest 2 (v % 16) 0 ((leftchar * 4 + v / 16) :: acc)
        | 2 => a2b_base64 rest 3 (v % 4) 0 ((leftchar * 16 + v / 4) :: acc)
        | _ => a2b_base64 rest 0 0 0 ((leftchar * 64 + v) :: acc)

/-- Python `base64.urlsafe_b64decode` applied to a string encoded as UTF-8:
the urlsafe characters are translated, then the base64 loop runs.  Characters
above ASCII encode to bytes outside the alphabet and are discarded by the
loop, so mapping over characters is faithful. -/
def urlsafe_b64decode (s : String) : Except String (List Nat) :=
  a2b_base64 (s.data.map urlsafeChar) 0 0 0 []

/-! ### UTF-8 decoding with `errors="replace"` -/

/-- Decides whether a byte is a UTF-8 continuation byte. -/
def isCont (b : Nat) : Bool := decide (128 ≤ b ∧ b ≤ 191)

/-- Valid range of the second byte after a 3-byte lead (excludes overlong
forms and surrogates). -/
def lead3SecondOk (b b2 : Nat) : Bool :=
  if b = 224 then decide (160 ≤ b2 ∧ b2 ≤ 191)
  else if b = 237 then decide (128 ≤ b2 ∧ b2 ≤ 159)
  else isCont b2

/-- Valid range of the second byte after a 4-byte lead (excludes overlong
forms and code points above U+10FFFF). -/
def lead4SecondOk (b b2 : Nat) : Bool :=
  if b = 240 then decide (144 ≤ b2 ∧ b2 ≤ 191)
  else if b = 244 then decide (128 ≤ b2 ∧ b2 ≤ 143)
  else isCont b2

/-- Worker of the UTF-8 decoder.  Each step consumes at least one byte, so
the explicit `fuel` (initialized to the byte count) never runs out; it only
makes the recursion structural. -/
def utf8go : Nat → List Nat → List Char
  | _, [] => []
  | 0, _ => []
  | fuel + 1, b :: rest =>
    if b ≤ 127 then Char.ofNat b :: utf8go fuel rest
    else if 194 ≤ b ∧ b ≤ 223 then
      match rest with
      | [] => [Char.ofNat 65533]
      | b2 :: rest2 =>
        if isCont b2 then
          Char.ofNat ((b - 192) * 64 + (b2 - 128)) :: utf8go fuel rest2
        else Char.ofNat 65533 :: utf8go fuel rest
    else if 224 ≤ b ∧ b ≤ 239 then
      match rest with
      | [] => [Char.ofNat 65533]
      | b2 :: rest2 =>
        if lead3SecondOk b b2 then
          match rest2 with
          | [] => [Char.ofNat 65533]
          | b3 :: rest3 =>
            if isCont b3 then
              Char.ofNat ((b - 224) * 4096 + (b2 - 128) * 64 + (b3 - 128)) ::
                utf8go fuel rest3
            else Char.ofNat 65533 :: utf8go fuel rest2
        else Char.ofNat 65533 :: utf8go fuel rest
    else if 240 ≤ b ∧ b ≤ 244 then
      match rest with
      | [] => [Char.ofNat 65533]
      | b2 :: rest2 =>
        if lead4SecondOk b b2 then
          match rest2 with
          | [] => [Char.ofNat 65533]
          | b3 :: rest3 =>
            if isCont b3 then
              match rest3 with
              | [] => [Char.ofNat 65533]
              | b4 :: rest4 =>
                if isCont b4 then
                  Char.ofNat ((b - 240) * 262144 + (b2 - 128) * 4096 +
                      (b3 - 128) * 64 + (b4 - 128)) :: utf8go fuel rest4
                else Char.ofNat 65533 :: utf8go fuel rest3
            else Char.ofNat 65533 :: utf8go fuel rest2
        else Char.ofNat 65533 :: utf8go fuel rest
    else Char.ofNat 65533 :: utf8go fuel rest

/-- Python `bytes.decode("utf-8", errors="replace")`: each maximal invalid
subsequence is replaced by U+FFFD (code point 65533).  Total: it never
raises. -/
def utf8_decode_replace (bs : List Nat) : List Char := utf8go bs.length bs

/-! ### utils.py -/

/-- Embedding of `utils._decode_body_data`: decode Gmail's URL-safe base64
encoded data to text; on a decoding error return `""` (the Python
`try`/`except` around the call). -/
def _decode_body_data (data : String) : String :=
  match urlsafe_b64decode data with
  | Except.ok bytes => ⟨utf8_decode_replace bytes⟩
  | Except.error _ => ""

/-- One element of the Gmail `headers` list: a dictionary whose `name` and
`value` keys may each be absent (`none`). -/
structure Header where
  name : Option String
  value : Option String

/-- Loop body of `utils.get_header`: `name_l` is the already-lowercased
lookup name. -/
def findHeader (name_l : String) : List Header → Option String
  | [] => none
  | h :: rest =>
    if pyLower (h.name.getD "") = name_l then h.value else findHeader name_l rest

/-- Embedding of `utils.get_header`: return a header value (case-insensitive)
from the Gmail headers list, `none` when no name matches.  `h.get("name") or
""` is `h.name.getD ""` (both map an absent or empty name to `""`). -/
def get_header (headers : List Header) (name : String) : Option String :=
  findHeader (pyLower name) headers

/-- One node of a Gmail message payload dictionary: `mimeType` (default `""`),
the `data` field of `body` (absent keys collapse to `none`) and the list of
child `parts` (an absent or null `parts` key collapses to `[]`, exactly as
`payload.get("parts", []) or []` does). -/
inductive Payload where
  | mk (mimeType : String) (bodyData : Option String) (parts : List Payload)

/-- Python truthiness of the `data` field: present and non-empty. -/
def truthyData : Option String → Bool
  | none => false
  | some d => d ≠ ""

mutual

/-- Embedding of `utils.extract_plain_text_from_payload` on a non-null
payload dictionary: a `text/plain` node with truthy body data returns its
decoded data; otherwise the node's parts are scanned in order.  (A Python
empty-dict payload is `.mk "" none []`, for which the falsy early return and
this definition both give `""`; the genuinely null payload is handled by
`extractOpt` below.) -/
def extract_plain_text_from_payload : Payload → String
  | .mk mime bodyData parts =>
    if mime = "text/plain" ∧ truthyData bodyData then
      _decode_body_data (bodyData.getD "")
    else
      extractParts parts

/-- The `for part in payload.get("parts", []) or []` loop: return the first
non-empty recursive result, else `""`. -/
def extractParts : List Payload → String
  | [] => ""
  | p :: rest =>
    let txt := extract_plain_text_from_payload p
    if txt ≠ "" then txt else extractParts rest

end

/-- Entry point including the `if not payload: return ""` guard for a null
payload. -/
def extractOpt : Option Payload → String
  | none => ""
  | some p => extract_plain_text_from_payload p

mutual

/-- Body data of every node satisfying the extractor's return condition
(`mimeType == "text/plain"` and truthy data), in depth-first pre-order. -/
def plainDatas : Payload → List String
  | .mk mime bodyData parts =>
    (if mime = "text/plain" ∧ truthyData bodyData then [bodyData.getD ""] else [])
      ++ plainDatasList parts

/-- List version of `plainDatas`. -/
def plainDatasList : List Payload → List String
  | [] => []
  | p :: rest => plainDatas p ++ plainDatasList rest

end

mutual

/-- Number of leaves (nodes with no parts) that are `text/plain` and carry
truthy body data. -/
def plainLeafCount : Payload → Nat
  | .mk mime bodyData parts =>
    (if mime = "text/plain" ∧ truthyData bodyData ∧ parts.isEmpty then 1 else 0)
      + plainLeafCountList parts

/-- List version of `plainLeafCount`. -/
def plainLeafCountList : List Payload → Nat
  | [] => 0
  | p :: rest => plainLeafCount p + plainLeafCountList rest

end

/-! ### reader.py — MailCategorizer -/

/-- The `urgent_kw` list of `MailCategorizer._heuristic`. -/
def urgent_kw : List String :=
  ["urgent", "asap", "immediately", "deadline", "overdue", "action required"]

/-- The `spam_kw` list of `MailCategorizer._heuristic`. -/
def spam_kw : List String :=
  ["unsubscribe", "winner", "prize", "lottery", "free", "buy now",
   "limited offer", "click here"]

/-- The `work_kw` list of `MailCategorizer._heuristic`. -/
def work_kw : List String :=
  ["meeting", "invoice", "project", "deadline", "contract", "interview", "hr",
   "client", "report"]

/-- The combined lowercased text `f"{from_addr}\n{subject}\n{body}".lower()`
tested by the heuristic. -/
def heuristicText (from_addr subject body : String) : String :=
  pyLower (from_addr ++ "\n" ++ subject ++ "\n" ++ body)

/-- Embedding of `MailCategorizer._heuristic`. -/
def _heuristic (from_addr subject body : String) : String :=
  let text := heuristicText from_addr subject body
  if urgent_kw.any (fun k => strContains text k) then "urgent"
  else if spam_kw.any (fun k => strContains text k) then "spam"
  else if work_kw.any (fun k => strContains text k) then "work"
  else "personal"

/-- The `MailCategorizer.ALLOWED` label set. -/
def ALLOWED : List String := ["work", "personal", "spam", "urgent"]

/-- Normalization `(out or "").strip().lower()` applied to the remote
response. -/
def normalizeLabel (out : String) : String := pyLower (pyStrip (pyOr out))

/-- The body actually dispatched to the remote backend:
`body if len(body) <= 5000 else body[:5000] + "\n...(truncated)..."`. -/
def sentBody (body : String) : String :=
  if body.length ≤ 5000 then body else body.take 5000 ++ "\n...(truncated)..."

/-- State of a `MailCategorizer`: `chain` is the LangChain pipeline when
construction succeeded (`self._chain`), modelled as a function from the four
dispatched fields to either a response string or a raised exception
(`Except.error`); `apiKeySet` is the truthiness of
`os.getenv("OPENAI_API_KEY")`. -/
structure MailCategorizer where
  chain : Option (String → String → String → String → Except String String)
  apiKeySet : Bool

/-- Embedding of `MailCategorizer.classify`.  The `try`/`except` around the
remote call is the `match` on the chain's `Except` result; every exception
falls through to the heuristic. -/
def classify (c : MailCategorizer) (from_addr to_addr subject body : String) : String :=
  match c.chain with
  | some ch =>
    if c.apiKeySet then
      match ch (pyOr from_addr) (pyOr to_addr) (pyOr subject) (pyOr (sentBody body)) with
      | Except.ok out =>
        let label := normalizeLabel out
        if ALLOWED.contains label then label else _heuristic from_addr subject body
      | Except.error _ => _heuristic from_addr subject body
    else _heuristic from_addr subject body
  | none => _heuristic from_addr subject body

/-- How `classify` consumes the remote response: the accepted-label check of
the `try` block together with the exception fallback, split out so the
dispatch to the chain is visible in the statements below. -/
def remoteResult (from_addr subject body : String) (resp : Except String String) : String :=
  match resp with
  | Except.ok out =>
    let label := normalizeLabel out
    if ALLOWED.contains label then label else _heuristic from_addr subject body
  | Except.error _ => _heuristic from_addr subject body

/-! ### Helper lemmas -/

theorem pyOr_eq (s : String) : pyOr s = s := by
  unfold pyOr
  split <;> simp_all

theorem isPrefixOfL_iff : ∀ (p xs : List Char), isPrefixOfL p xs = true ↔ ∃ t, xs = p ++ t
  | [], xs => by simp [isPrefixOfL]
  | a :: p, [] => by simp [isPrefixOfL]
  | a :: p, b :: xs => by
    rw [isPrefixOfL, Bool.and_eq_true, beq_iff_eq, isPrefixOfL_iff p xs]
    constructor
    · rintro ⟨rfl, t, rfl⟩
      exact ⟨t, rfl⟩
    · rintro ⟨t, h⟩
      injection h with h1 h2
      exact ⟨h1.symm, t, h2⟩

theorem containsL_iff : ∀ (pat xs : List Char), containsL pat xs = true ↔ ∃ l r, xs = l ++ pat ++ r
  | pat, [] => by
    rw [containsL, isPrefixOfL_iff]
    constructor
    · rintro ⟨t, h⟩
      obtain ⟨h1, h2⟩ := List.append_eq_nil.mp h.symm
      exact ⟨[], [], by simp [h1]⟩
    · rintro ⟨l, r, h⟩
      obtain ⟨h1, h2⟩ := List.append_eq_nil.mp h.symm
      obtain ⟨h3, h4⟩ := List.append_eq_nil.mp h1
      exact ⟨[], by simp [h4]⟩
  | pat, c :: xs => by
    rw [containsL, Bool.or_eq_true, isPrefixOfL_iff, containsL_iff pat xs]
    constructor
    · rintro (⟨t, h⟩ | ⟨l, r, rfl⟩)
      · exact ⟨[], t, by simpa using h⟩
      · exact ⟨c :: l, r, by simp⟩
    · rintro ⟨l, r, h⟩
      match l, h with
      | [], h => exact Or.inl ⟨r, by simpa using h⟩
      | x :: l, h =>
        injection h with h1 h2
        exact Or.inr ⟨l, r, h2⟩

theorem string_data_append (a b : String) : (a ++ b).data = a.data ++ b.data := by
  cases a
  cases b
  rfl

theorem strContains_trans (t p q : String) (h1 : strContains t p = true)
    (h2 : strContains p q = true) : strContains t q = true := by
  obtain ⟨l, r, ht⟩ := (containsL_iff p.data t.data).mp h1
  obtain ⟨l2, r2, hp⟩ := (containsL_iff q.data p.data).mp h2
  refine (containsL_iff q.data t.data).mpr ⟨l ++ l2, r2 ++ r, ?_⟩
  rw [ht, hp]
  simp [List.append_assoc]

theorem strContains_sandwich (pre kw post : String) :
    strContains (pre ++ kw ++ post) kw = true := by
  refine (containsL_iff _ _).mpr ⟨pre.data, post.data, ?_⟩
  rw [string_data_append, string_data_append]

theorem heuristic_eq_urgent (f s b : String)
    (h : urgent_kw.any (fun k => strContains (heuristicText f s b) k) = true) :
    _heuristic f s b = "urgent" := by
  simp [_heuristic, h]

theorem heuristic_eq_spam (f s b : String)
    (h1 : urgent_kw.any (fun k => strContains (heuristicText f s b) k) = false)
    (h2 : spam_kw.any (fun k => strContains (heuristicText f s b) k) = true) :
    _heuristic f s b = "spam" := by
  simp [_heuristic, h1, h2]

theorem heuristic_eq_work (f s b : String)
    (h1 : urgent_kw.any (fun k => strContains (heuristicText f s b) k) = false)
    (h2 : spam_kw.any (fun k => strContains (heuristicText f s b) k) = false)
    (h3 : work_kw.any (fun k => strContains (heuristicText f s b) k) = true) :
    _heuristic f s b = "work" := by
  simp [_heuristic, h1, h2, h3]

theorem heuristic_eq_personal (f s b : String)
    (h1 : urgent_kw.any (fun k => strContains (heuristicText f s b) k) = false)
    (h2 : spam_kw.any (fun k => strContains (heuristicText f s b) k) = false)
    (h3 : work_kw.any (fun k => strContains (heuristicText f s b) k) = false) :
    _heuristic f s b = "personal" := by
  simp [_heuristic, h1, h2, h3]

theorem heuristic_mem_ALLOWED (f s b : String) :
    ALLOWED.contains (_heuristic f s b) = true := by
  simp only [_heuristic]
  split_ifs <;> rfl

theorem decode_body_data_empty : _decode_body_data "" = "" := rfl

mutual

theorem extract_of_plainDatas_nil (p : Payload) (h : plainDatas p = []) :
    extract_plain_text_from_payload p = "" := by
  match p with
  | .mk mime bd parts =>
    rw [extract_plain_text_from_payload]
    rw [plainDatas] at h
    split
    · next hc =>
      rw [if_pos hc] at h
      simp at h
    · next hc =>
      rw [if_neg hc] at h
      simp at h
      exact extractParts_of_plainDatas_nil parts h

theorem extractParts_of_plainDatas_nil (ps : List Payload) (h : plainDatasList ps = []) :
    extractParts ps = "" := by
  match ps with
  | [] => rw [extractParts]
  | p :: rest =>
    rw [extractParts]
    rw [plainDatasList] at h
    simp at h
    rw [extract_of_plainDatas_nil p h.1]
    simp
    exact extractParts_of_plainDatas_nil rest h.2

end

mutual

theorem extract_of_plainDatas_single (p : Payload) (d : String) (h : plainDatas p = [d]) :
    extract_plain_text_from_payload p = _decode_body_data d := by
  match p with
  | .mk mime bd parts =>
    rw [extract_plain_text_from_payload]
    rw [plainDatas] at h
    split
    · next hc =>
      rw [if_pos hc] at h
      simp at h
      rw [h.1]
    · next hc =>
      rw [if_neg hc] at h
      simp at h
      exact extractParts_of_plainDatas_single parts d h

theorem extractParts_of_plainDatas_single (ps : List Payload) (d : String)
    (h : plainDatasList ps = [d]) : extractParts ps = _decode_body_data d := by
  match ps with
  | [] => simp [plainDatasList] at h
  | p :: rest =>
    rw [extractParts]
    rw [plainDatasList] at h
    cases hp : plainDatas p with
    | nil =>
      rw [hp] at h
      simp at h
      rw [extract_of_plainDatas_nil p hp]
      simp
      exact extractParts_of_plainDatas_single rest d h
    | cons x xs =>
      rw [hp] at h
      simp at h
      obtain ⟨hxd, hxs, hrest⟩ := h
      have hp1 : plainDatas p = [d] := by rw [hp, hxs, hxd]
      rw [extract_of_plainDatas_single p d hp1]
      by_cases hd : _decode_body_data d = ""
      · rw [hd]
        have he : extractParts rest = "" := extractParts_of_plainDatas_nil rest hrest
        simp [he]
      · simp [hd]

end

/-! ### Claims -/

/-- C1 (counterexample): the claim "for every input whose combined text
contains both 'free' and 'meeting' it returns 'spam'" is false as stated:
the input with body `"free meeting urgent"` contains both keywords, yet the
heuristic returns `"urgent"` because the urgent list is tested first. -/
theorem claim_C1_counterexample :
    strContains (heuristicText "" "" "free meeting urgent") "free" = true
    ∧ strContains (heuristicText "" "" "free meeting urgent") "meeting" = true
    ∧ _heuristic "" "" "free meeting urgent" ≠ "spam" := by
  refine ⟨by decide, by decide, ?_⟩
  decide

/-- C1 (amended): the heuristic classifier lowercases the newline-joined
concatenation of `fromAddr`, `subject`, `body` and tests the three fixed
keyword lists in the priority order urgent, spam, work, returning the label
of the first list with a matching keyword and `"personal"` when none match;
consequently an input whose combined text contains `"deadline"` and no other
keyword returns `"urgent"`, and an input whose combined text contains both
`"free"` and `"meeting"` and no urgent keyword returns `"spam"`. -/
theorem claim_C1 (f s b : String) :
    (urgent_kw.any (fun k => strContains (heuristicText f s b) k) = true →
        _heuristic f s b = "urgent")
    ∧ (urgent_kw.any (fun k => strContains (heuristicText f s b) k) = false →
       spam_kw.any (fun k => strContains (heuristicText f s b) k) = true →
        _heuristic f s b = "spam")
    ∧ (urgent_kw.any (fun k => strContains (heuristicText f s b) k) = false →
       spam_kw.any (fun k => strContains (heuristicText f s b) k) = false →
       work_kw.any (fun k => strContains (heuristicText f s b) k) = true →
        _heuristic f s b = "work")
    ∧ (urgent_kw.any (fun k => strContains (heuristicText f s b) k) = false →
       spam_kw.any (fun k => strContains (heuristicText f s b) k) = false →
       work_kw.any (fun k => strContains (heuristicText f s b) k) = false →
        _heuristic f s b = "personal")
    ∧ (strContains (heuristicText f s b) "deadline" = true →
       (∀ k ∈ urgent_kw ++ spam_kw ++ work_kw, k ≠ "deadline" →
          strContains (heuristicText f s b) k = false) →
        _heuristic f s b = "urgent")
    ∧ (strContains (heuristicText f s b) "free" = true →
       strContains (heuristicText f s b) "meeting" = true →
       urgent_kw.any (fun k => strContains (heuristicText f s b) k) = false →
        _heuristic f s b = "spam") := by
  refine ⟨heuristic_eq_urgent f s b, heuristic_eq_spam f s b,
    heuristic_eq_work f s b, heuristic_eq_personal f s b, ?_, ?_⟩
  · intro hdl _
    refine heuristic_eq_urgent f s b (List.any_eq_true.mpr ⟨"deadline", ?_, hdl⟩)
    decide
  · intro hfree _ hurg
    refine heuristic_eq_spam f s b hurg (List.any_eq_true.mpr ⟨"free", ?_, hfree⟩)
    decide

/-- C1 (witness): each implication of `claim_C1`, discharged at a concrete
input. -/
theorem claim_C1_witness :
    _heuristic "" "" "urgent" = "urgent"
    ∧ _heuristic "" "" "free" = "spam"
    ∧ _heuristic "" "" "meeting" = "work"
    ∧ _heuristic "" "" "hello" = "personal"
    ∧ _heuristic "" "" "deadline" = "urgent"
    ∧ _heuristic "" "" "free meeting" = "spam" :=
  ⟨(claim_C1 "" "" "urgent").1 (by decide),
   (claim_C1 "" "" "free").2.1 (by decide) (by decide),
   (claim_C1 "" "" "meeting").2.2.1 (by decide) (by decide) (by decide),
   (claim_C1 "" "" "hello").2.2.2.1 (by decide) (by decide) (by decide),
   (claim_C1 "" "" "deadline").2.2.2.2.1 (by decide) (by decide),
   (claim_C1 "" "" "free meeting").2.2.2.2.2 (by decide) (by decide) (by decide)⟩

/-- C10: keyword matching is plain substring containment, not word-boundary
matching: a keyword occurring inside a longer word still matches; a body
containing `"freedom"` and no urgent keyword is classified `"spam"` (it
contains `"free"`), and a body containing `"through"` and no urgent or spam
keyword is classified `"work"` (it contains `"hr"`). -/
theorem claim_C10 (pre kw post : String) (f s b : String) :
    strContains (pre ++ kw ++ post) kw = true
    ∧ (strContains (heuristicText f s b) "freedom" = true →
       urgent_kw.any (fun k => strContains (heuristicText f s b) k) = false →
        _heuristic f s b = "spam")
    ∧ (strContains (heuristicText f s b) "through" = true →
       urgent_kw.any (fun k => strContains (heuristicText f s b) k) = false →
       spam_kw.any (fun k => strContains (heuristicText f s b) k) = false →
        _heuristic f s b = "work") := by
  refine ⟨strContains_sandwich pre kw post, ?_, ?_⟩
  · intro hfdm hurg
    have hfree : strContains (heuristicText f s b) "free" = true :=
      strContains_trans _ "freedom" "free" hfdm (by decide)
    exact heuristic_eq_spam f s b hurg (List.any_eq_true.mpr ⟨"free", by decide, hfree⟩)
  · intro hthr hurg hspam
    have hhr : strContains (heuristicText f s b) "hr" = true :=
      strContains_trans _ "through" "hr" hthr (by decide)
    exact heuristic_eq_work f s b hurg hspam
      (List.any_eq_true.mpr ⟨"hr", by decide, hhr⟩)

/-- C10 (witness): the three parts of `claim_C10` discharged at concrete
inputs. -/
theorem claim_C10_witness :
    strContains ("ab" ++ "cd" ++ "ef") "cd" = true
    ∧ _heuristic "" "" "freedom" = "spam"
    ∧ _heuristic "" "" "through" = "work" :=
  ⟨(claim_C10 "ab" "cd" "ef" "" "" "").1,
   (claim_C10 "" "" "" "" "" "freedom").2.1 (by decide) (by decide),
   (claim_C10 "" "" "" "" "" "through").2.2 (by decide) (by decide) (by decide)⟩

/-- C9: header lookup matches names case-insensitively, and when several
headers match the lookup name, the value of the first occurrence in list
order is returned (later matching headers, even with identical names, are
ignored). -/
theorem claim_C9 (pre post : List Header) (h : Header) (name : String)
    (hpre : ∀ h2 ∈ pre, pyLower (h2.name.getD "") ≠ pyLower name)
    (hmatch : pyLower (h.name.getD "") = pyLower name) :
    get_header (pre ++ h :: post) name = h.value := by
  unfold get_header
  induction pre with
  | nil =>
    rw [List.nil_append, findHeader, if_pos hmatch]
  | cons h2 rest ih =>
    rw [List.cons_append, findHeader, if_neg (hpre h2 (by simp))]
    exact ih fun h3 hm => hpre h3 (by simp [hm])

/-- C9 (witness): `claim_C9` on a concrete header list where the looked-up
name repeats with different capitalizations. -/
theorem claim_C9_witness :
    get_header [⟨some "X-Id", some "0"⟩, ⟨some "From", some "v1"⟩,
        ⟨some "FROM", some "v2"⟩] "fRoM" = some "v1" :=
  claim_C9 [⟨some "X-Id", some "0"⟩] [⟨some "FROM", some "v2"⟩]
    ⟨some "From", some "v1"⟩ "fRoM" (by decide) (by decide)

theorem extractParts_nil : extractParts [] = "" := by
  rw [extractParts]

theorem extractParts_cons (p : Payload) (ps : List Payload) :
    extractParts (p :: ps) =
      if extract_plain_text_from_payload p ≠ "" then extract_plain_text_from_payload p
      else extractParts ps := by
  rw [extractParts]

theorem extract_container (m : String) (parts : List Payload) :
    extract_plain_text_from_payload (.mk m none parts) = extractParts parts := by
  rw [extract_plain_text_from_payload]
  rw [if_neg]
  intro hc
  simp [truthyData] at hc

theorem extract_plain_leaf (d : String) :
    extract_plain_text_from_payload (.mk "text/plain" (some d) []) = _decode_body_data d := by
  rw [extract_plain_text_from_payload]
  by_cases hd : d = ""
  · subst hd
    have hc : ¬("text/plain" = "text/plain" ∧ truthyData (some "") = true) := by
      simp [truthyData]
    rw [if_neg hc, extractParts]
    exact decode_body_data_empty.symm
  · rw [if_pos ⟨rfl, by simp [truthyData, hd]⟩]
    rfl

theorem extract_nonplain_leaf (m : String) (bd : Option String) (hm : m ≠ "text/plain") :
    extract_plain_text_from_payload (.mk m bd []) = "" := by
  rw [extract_plain_text_from_payload]
  rw [if_neg fun hc => hm hc.1]
  rw [extractParts]

/-- C2: the extractor is a depth-first pre-order traversal that scans a
node's parts in their original order and keeps the first non-empty result;
for the multipart tree [HTML leaf, plain-text leaf] it returns the plain
leaf's decoded content, and for the reversed order [plain-text leaf, HTML
leaf] it returns the same content. -/
theorem claim_C2 (p : Payload) (ps : List Payload) (hData pData : String) :
    extractParts (p :: ps) =
      (if extract_plain_text_from_payload p ≠ "" then extract_plain_text_from_payload p
       else extractParts ps)
    ∧ extract_plain_text_from_payload (.mk "multipart/alternative" none
        [.mk "text/html" (some hData) [], .mk "text/plain" (some pData) []])
      = _decode_body_data pData
    ∧ extract_plain_text_from_payload (.mk "multipart/alternative" none
        [.mk "text/plain" (some pData) [], .mk "text/html" (some hData) []])
      = _decode_body_data pData := by
  have hhtml : extract_plain_text_from_payload (.mk "text/html" (some hData) []) = "" :=
    extract_nonplain_leaf _ _ (by decide)
  refine ⟨extractParts_cons p ps, ?_, ?_⟩
  · rw [extract_container, extractParts_cons, hhtml]
    simp only [ne_eq, not_true_eq_false, if_false, not_false_iff]
    rw [extractParts_cons, extract_plain_leaf]
    by_cases hd : _decode_body_data pData = "" <;> simp [hd, extractParts_nil]
  · rw [extract_container, extractParts_cons, extract_plain_leaf]
    by_cases hd : _decode_body_data pData = ""
    · simp only [hd, ne_eq, not_true_eq_false, if_false]
      rw [extractParts_cons, hhtml]
      simp [extractParts_nil]
    · simp [hd]

/-- C4: a text/plain node whose body data is malformed URL-safe base64 does
not raise: decoding it yields `""`, the node contributes the empty string,
and the parent's scan continues with the following siblings, so a later
sibling with valid plain-text content is still returned. -/
theorem claim_C4 (mime bad good e : String) (sib : List Payload)
    (hfail : urlsafe_b64decode bad = Except.error e) :
    _decode_body_data bad = ""
    ∧ extract_plain_text_from_payload
        (.mk mime none (.mk "text/plain" (some bad) [] :: sib)) = extractParts sib
    ∧ extract_plain_text_from_payload (.mk mime none
        [.mk "text/plain" (some bad) [], .mk "text/plain" (some good) []])
      = _decode_body_data good := by
  have hdec : _decode_body_data bad = "" := by
    unfold _decode_body_data
    rw [hfail]
  have hbadnode : extract_plain_text_from_payload (.mk "text/plain" (some bad) []) = "" := by
    by_cases hb : bad = ""
    · subst hb
      rw [extract_plain_leaf]
      exact decode_body_data_empty
    · rw [extract_plain_leaf]
      exact hdec
  refine ⟨hdec, ?_, ?_⟩
  · rw [extract_container, extractParts_cons, hbadnode]
    simp
  · rw [extract_container, extractParts_cons, hbadnode]
    simp only [ne_eq, not_true_eq_false, if_false, not_false_iff]
    rw [extractParts_cons, extract_plain_leaf]
    by_cases hd : _decode_body_data good = "" <;> simp [hd, extractParts_nil]

/-- C4 (witness): `claim_C4` at the malformed data `"a"` (one base64
character is one more than a multiple of four, which CPython rejects) with a
valid sibling. -/
theorem claim_C4_witness :
    _decode_body_data "a" = ""
    ∧ extract_plain_text_from_payload (.mk "multipart/mixed" none
        (.mk "text/plain" (some "a") [] :: [.mk "text/plain" (some "eW8=") []]))
      = extractParts [.mk "text/plain" (some "eW8=") []]
    ∧ extract_plain_text_from_payload (.mk "multipart/mixed" none
        [.mk "text/plain" (some "a") [], .mk "text/plain" (some "eW8=") []])
      = _decode_body_data "eW8=" :=
  claim_C4 "multipart/mixed" "a" "eW8=" "Invalid base64-encoded string"
    [.mk "text/plain" (some "eW8=") []] rfl

/-- C7: for a payload tree with no text/plain node carrying non-empty body
data anywhere, and for an absent payload, the extractor returns the empty
string (and, being a total function, does not raise). -/
theorem claim_C7 (op : Option Payload) (h : ∀ p, op = some p → plainDatas p = []) :
    extractOpt op = "" := by
  cases op with
  | none => rfl
  | some p => exact extract_of_plainDatas_nil p (h p rfl)

/-- C7 (witness): `claim_C7` on an HTML-and-image-only tree and on the
absent payload. -/
theorem claim_C7_witness :
    extractOpt (some (.mk "multipart/alternative" none
      [.mk "text/html" (some "aGk=") [], .mk "image/png" none []])) = ""
    ∧ extractOpt none = "" := by
  constructor
  · refine claim_C7 _ ?_
    intro p hp
    cases hp
    decide
  · exact claim_C7 none fun p hp => nomatch hp

/-- C8 (counterexample): the claim fails as stated for trees in which a
non-leaf `text/plain` node also carries body data (the data model allows a
node to carry body data alongside parts).  This tree contains exactly one
text/plain leaf carrying body data — the child with data `"eW8="` — yet the
extractor returns the decoded content of the non-leaf root (`"aGk="`
decodes to `"hi"`), not the leaf's decoded content (`"yo"`). -/
theorem claim_C8_counterexample :
    plainLeafCount (Payload.mk "text/plain" (some "aGk=")
        [Payload.mk "text/plain" (some "eW8=") []]) = 1
    ∧ extract_plain_text_from_payload (Payload.mk "text/plain" (some "aGk=")
        [Payload.mk "text/plain" (some "eW8=") []]) = _decode_body_data "aGk="
    ∧ extract_plain_text_from_payload (Payload.mk "text/plain" (some "aGk=")
        [Payload.mk "text/plain" (some "eW8=") []]) ≠ _decode_body_data "eW8=" := by
  refine ⟨by decide, by decide, by decide⟩

/-- C8 (amended): for every payload tree in which exactly one `text/plain`
node carries (truthy) body data, at any nesting depth, the extractor
returns that node's decoded content, independent of the depth. -/
theorem claim_C8 (p : Payload) (d : String) (h : plainDatas p = [d]) :
    extract_plain_text_from_payload p = _decode_body_data d :=
  extract_of_plainDatas_single p d h

/-- C8 (witness): `claim_C8` on a tree whose unique text/plain data node
sits at depth 2. -/
theorem claim_C8_witness :
    extract_plain_text_from_payload (.mk "multipart/mixed" none
      [.mk "image/png" none [],
       .mk "multipart/alternative" none
         [.mk "text/html" (some "aGk=") [], .mk "text/plain" (some "aGVsbG8=") []]])
      = _decode_body_data "aGVsbG8=" :=
  claim_C8 (.mk "multipart/mixed" none
      [.mk "image/png" none [],
       .mk "multipart/alternative" none
         [.mk "text/html" (some "aGk=") [], .mk "text/plain" (some "aGVsbG8=") []]])
    "aGVsbG8=" (by decide)

/-- C3: `classify` is a total function into the allowed label set for every
combination of (possibly empty) string inputs and every categorizer state —
the embedding returns a plain `String`, never an exception value — and with
all four inputs empty and the remote path unavailable (no chain, or no API
key) it returns `"personal"`. -/
theorem claim_C3 (c : MailCategorizer) (f t s b : String) :
    ALLOWED.contains (classify c f t s b) = true
    ∧ ((c.chain = none ∨ c.apiKeySet = false) → classify c "" "" "" "" = "personal") := by
  obtain ⟨chain, key⟩ := c
  constructor
  · cases chain with
    | none => exact heuristic_mem_ALLOWED f s b
    | some ch =>
      cases key with
      | false => exact heuristic_mem_ALLOWED f s b
      | true =>
        show ALLOWED.contains (match ch (pyOr f) (pyOr t) (pyOr s)
          (pyOr (sentBody b)) with
          | Except.ok out =>
            if ALLOWED.contains (normalizeLabel out) then normalizeLabel out
            else _heuristic f s b
          | Except.error _ => _heuristic f s b) = true
        cases ch (pyOr f) (pyOr t) (pyOr s) (pyOr (sentBody b)) with
        | ok out =>
          show ALLOWED.contains (if ALLOWED.contains (normalizeLabel out) = true
            then normalizeLabel out else _heuristic f s b) = true
          by_cases hA : ALLOWED.contains (normalizeLabel out) = true
          · rw [if_pos hA]
            exact hA
          · rw [if_neg hA]
            exact heuristic_mem_ALLOWED f s b
        | error e => exact heuristic_mem_ALLOWED f s b
  · rintro (hc | hk)
    · cases hc
      exact (by decide : _heuristic "" "" "" = "personal")
    · cases hk
      cases chain with
      | none => exact (by decide : _heuristic "" "" "" = "personal")
      | some ch => exact (by decide : _heuristic "" "" "" = "personal")

/-- C3 (witness): `claim_C3` at the all-empty input with no remote chain. -/
theorem claim_C3_witness :
    ALLOWED.contains (classify ⟨none, false⟩ "" "" "" "") = true
    ∧ classify ⟨none, false⟩ "" "" "" "" = "personal" :=
  ⟨(claim_C3 ⟨none, false⟩ "" "" "" "").1,
   (claim_C3 ⟨none, false⟩ "" "" "" "").2 (Or.inl rfl)⟩

theorem remoteResult_ok (f s b out : String) :
    remoteResult f s b (Except.ok out) =
      if ALLOWED.contains (normalizeLabel out) = true then normalizeLabel out
      else _heuristic f s b := rfl

theorem remoteResult_error (f s b e : String) :
    remoteResult f s b (Except.error e) = _heuristic f s b := rfl

theorem classify_remote_eq (ch : String → String → String → String → Except String String)
    (f t s b : String) :
    classify ⟨some ch, true⟩ f t s b = remoteResult f s b (ch f t s (sentBody b)) := by
  have h0 : ∀ r, (match r with
      | Except.ok out =>
        if ALLOWED.contains (normalizeLabel out) = true then normalizeLabel out
        else _heuristic f s b
      | Except.error _ => _heuristic f s b) = remoteResult f s b r := by
    intro r
    cases r <;> rfl
  calc classify ⟨some ch, true⟩ f t s b
      = remoteResult f s b (ch (pyOr f) (pyOr t) (pyOr s) (pyOr (sentBody b))) := h0 _
    _ = remoteResult f s b (ch f t s (sentBody b)) := by simp only [pyOr_eq]

/-- Concrete 5001-character body used by the C5 witness. -/
def longBody : String := ⟨List.replicate 5001 'a'⟩

/-- C5: on the remote path the body dispatched to the backend is the
original body when its length is at most 5000 characters, and otherwise
exactly the first 5000 characters followed by the truncation marker
`"\n...(truncated)..."`; the other three fields reach the backend
unmodified (the chain receives `f`, `t`, `s` as given). -/
theorem claim_C5 (ch : String → String → String → String → Except String String)
    (f t s b : String) :
    classify ⟨some ch, true⟩ f t s b = remoteResult f s b (ch f t s (sentBody b))
    ∧ (b.length ≤ 5000 → sentBody b = b)
    ∧ (5000 < b.length → sentBody b = b.take 5000 ++ "\n...(truncated)...") := by
  refine ⟨classify_remote_eq ch f t s b, ?_, ?_⟩
  · intro h
    simp only [sentBody]
    rw [if_pos h]
  · intro h
    simp only [sentBody]
    rw [if_neg (by omega)]

/-- C5 (witness): `claim_C5` with an echoing test double, a short body, and
a 5001-character body. -/
theorem claim_C5_witness :
    classify ⟨some (fun _ _ _ x => Except.ok x), true⟩ "f" "t" "s" "hi"
      = remoteResult "f" "s" "hi" (Except.ok (sentBody "hi"))
    ∧ sentBody "hi" = "hi"
    ∧ sentBody longBody = longBody.take 5000 ++ "\n...(truncated)..." :=
  ⟨(claim_C5 (fun _ _ _ x => Except.ok x) "f" "t" "s" "hi").1,
   (claim_C5 (fun _ _ _ x => Except.ok x) "f" "t" "s" "hi").2.1 (by decide),
   (claim_C5 (fun _ _ _ x => Except.ok x) "f" "t" "s" longBody).2.2 (by
      have hl : longBody.length = 5001 := by
        show (String.mk (List.replicate 5001 'a')).length = 5001
        rw [String.length]
        exact List.length_replicate 5001 'a'
      omega)⟩

/-- C6: when the remote backend is invoked and returns a response, `classify`
returns the response normalized by trimming and lowercasing exactly when the
normalized string is one of the four allowed labels; if the normalized
response is out of vocabulary, or the remote call raises any error,
`classify` returns the heuristic result for the same inputs (no retry, no
exception). -/
theorem claim_C6 (ch : String → String → String → String → Except String String)
    (f t s b out : String) :
    (ch f t s (sentBody b) = Except.ok out →
      ((classify ⟨some ch, true⟩ f t s b = normalizeLabel out ↔
          ALLOWED.contains (normalizeLabel out) = true)
       ∧ (ALLOWED.contains (normalizeLabel out) = false →
            classify ⟨some ch, true⟩ f t s b = _heuristic f s b)))
    ∧ (∀ e, ch f t s (sentBody b) = Except.error e →
        classify ⟨some ch, true⟩ f t s b = _heuristic f s b) := by
  constructor
  · intro hok
    rw [classify_remote_eq, hok, remoteResult_ok]
    constructor
    · by_cases hA : ALLOWED.contains (normalizeLabel out) = true
      · rw [if_pos hA]
        exact iff_of_true rfl hA
      · rw [if_neg hA]
        constructor
        · intro he
          exact absurd (he ▸ heuristic_mem_ALLOWED f s b) hA
        · intro hc
          exact absurd hc hA
    · intro hA
      have hne : ¬(ALLOWED.contains (normalizeLabel out) = true) := by
        rw [hA]
        exact Bool.false_ne_true
      rw [if_neg hne]
  · intro e he
    rw [classify_remote_eq, he, remoteResult_error]

/-- C6 (witness): `claim_C6` with a backend returning `" Work "` (accepted
after normalization) and one raising an exception (heuristic fallback). -/
theorem claim_C6_witness :
    classify ⟨some (fun _ _ _ _ => Except.ok " Work "), true⟩ "" "" "" "" = "work"
    ∧ classify ⟨some (fun _ _ _ _ => Except.error "boom"), true⟩ "" "" "" "" = "personal" := by
  constructor
  · have h := ((claim_C6 (fun _ _ _ _ => Except.ok " Work ") "" "" "" "" " Work ").1 rfl).1
    have hn : normalizeLabel " Work " = "work" := by decide
    rw [hn] at h
    exact h.mpr (by decide)
  · have h := (claim_C6 (fun _ _ _ _ => Except.error "boom") "" "" "" "" "").2 "boom" rfl
    rw [h]
    decide
